import Mathlib

/-!
Shallow embedding of `clonedigger/logilab/common/changelog.py`.

Text is modelled as `List Char`; a physical line (as produced by Python's
`readlines`) keeps its trailing newline character.  Python exceptions are
modelled with `Except PyErr` / explicit error values; writing to a stream is
modelled by returning the written characters.
-/

set_option maxRecDepth 4000

/-- Python whitespace characters recognised by `str.strip()` / `str.split()`
(ASCII range; the source file only ever deals with ASCII change logs). -/
def pySpace (c : Char) : Bool :=
  c == ' ' || c == '\t' || c == '\n' || c == '\r' || c == '\x0b' || c == '\x0c'

/-- Python `str.lstrip()` : drop leading whitespace. -/
def lstrip (l : List Char) : List Char := l.dropWhile pySpace

/-- Python `str.rstrip()` : drop trailing whitespace. -/
def rstrip (l : List Char) : List Char := ((l.reverse).dropWhile pySpace).reverse

/-- Python `str.strip()`. -/
def pyStrip (l : List Char) : List Char := rstrip (lstrip l)

/-- Worker for `str.split()` (no separator argument): the accumulator holds
the current in-progress word, reversed. -/
def wordsAux : List Char → List Char → List (List Char)
  | [], acc => if acc = [] then [] else [acc.reverse]
  | c :: rest, acc =>
    if pySpace c then
      if acc = [] then wordsAux rest [] else acc.reverse :: wordsAux rest []
    else wordsAux rest (c :: acc)

/-- Python `str.split()` : split on runs of whitespace, dropping empty pieces. -/
def pyWords (l : List Char) : List (List Char) := wordsAux l []

/-- The `line.strip().split()` value computed at the top of the `ChangeLog.load` loop. -/
def lineWords (l : List Char) : List (List Char) := pyWords (pyStrip l)

/-- Python `versionstr.split('.')` : split on each `'.'`, keeping empty pieces
(the result is never the empty list). -/
def splitDot : List Char → List (List Char)
  | [] => [[]]
  | c :: rest =>
    if c = '.' then [] :: splitDot rest
    else
      match splitDot rest with
      | [] => [[c]]
      | w :: ws => (c :: w) :: ws

/-- Python exceptions that can escape the functions modelled here. -/
inductive PyErr where
  | valueError
  | indexError
  | attributeError
  | noEntry
  | entryNotFound
deriving DecidableEq, Repr

/-- Success test on `Except`, kept local so every definition is first-party. -/
def isOkE : Except ε α → Bool
  | .ok _ => true
  | .error _ => false

/-- Numeric value of a digit character. -/
def digitVal (c : Char) : Nat := c.toNat - 48

/-- Value of a digit string read most-significant first. -/
def digitsVal (ds : List Char) : Nat := ds.foldl (fun a c => 10 * a + digitVal c) 0

/-- Digit-string parsing at the heart of Python `int(...)`: at least one
character and every character a decimal digit. -/
def digitsToNat (ds : List Char) : Except PyErr Nat :=
  if ds ≠ [] ∧ ds.all Char.isDigit then .ok (digitsVal ds) else .error .valueError

/-- Python `int(string)` (CPython 2 semantics, as run by this code base):
surrounding whitespace is ignored, then an optional single sign, then one or
more decimal digits; anything else raises `ValueError`. -/
def pyInt (l : List Char) : Except PyErr Int :=
  match pyStrip l with
  | [] => .error .valueError
  | c :: ds =>
    if c = '+' then (digitsToNat ds).map Int.ofNat
    else if c = '-' then (digitsToNat ds).map (fun n => -(Int.ofNat n))
    else (digitsToNat (c :: ds)).map Int.ofNat

/-- The comprehension `[int(i) for i in segs]` : left to right, first failure propagates. -/
def parseSegs : List (List Char) → Except PyErr (List Int)
  | [] => .ok []
  | s :: rest =>
    match pyInt s with
    | .error e => .error e
    | .ok i => (parseSegs rest).map (fun is => i :: is)

/-- Source `Version.__new__` on a string argument:
`[int(i) for i in versionstr.split('.')]`.  A `Version` value is the resulting
tuple of integers, modelled as `List Int` (tuple equality and ordering are
structural). -/
def parseVersion (l : List Char) : Except PyErr (List Int) := parseSegs (splitDot l)

/-- The decimal digit for a value `< 10` (`9` also absorbs impossible inputs). -/
def digitChar : Nat → Char
  | 0 => '0' | 1 => '1' | 2 => '2' | 3 => '3' | 4 => '4'
  | 5 => '5' | 6 => '6' | 7 => '7' | 8 => '8' | _ => '9'

/-- Worker for `natToChars`; the fuel only serves structural recursion and
any amount `> n` computes the digits of `n`. -/
def natToCharsAux : Nat → Nat → List Char
  | 0, _ => []
  | fuel + 1, n =>
    if n < 10 then [digitChar n]
    else natToCharsAux fuel (n / 10) ++ [digitChar (n % 10)]

/-- Python `str(n)` for a natural number. -/
def natToChars (n : Nat) : List Char := natToCharsAux (n + 1) n

/-- Python `str(i)` for an integer. -/
def intStr : Int → List Char
  | .ofNat n => natToChars n
  | .negSucc n => '-' :: natToChars (n + 1)

/-- Python `'.'.join(segs)`. -/
def joinDots : List (List Char) → List Char
  | [] => []
  | [s] => s
  | s :: s' :: rest => s ++ '.' :: joinDots (s' :: rest)

/-- Source `Version.__str__` : `'.'.join([str(i) for i in self])`. -/
def renderVersion (v : List Int) : List Char := joinDots (v.map intStr)

/-- Rendering of an all-natural version (the shape appearing in the file format). -/
def renderVerNat (v : List Nat) : List Char := joinDots (v.map natToChars)

/-- Python tuple `<` on integer tuples (lexicographic; a proper initial
segment is smaller than the longer tuple).  `Version` inherits this from
`tuple`. -/
def verLt : List Int → List Int → Bool
  | [], [] => false
  | [], _ :: _ => true
  | _ :: _, [] => false
  | a :: xs, b :: ys => if a < b then true else if b < a then false else verLt xs ys

/-- Source constant `BULLET = '*'`. -/
def BULLET : Char := '*'

/-- Source constant `INDENT` of four spaces. -/
def INDENT : List Char := [' ', ' ', ' ', ' ']

/-- A message group of a `ChangeLogEntry`: the Python list
`[first_line, raw_continuation_line, ...]`, whose head always exists, is
modelled as the pair (first line, continuation lines). -/
abbrev MsgGroup := List Char × List (List Char)

/-- Source class `ChangeLogEntry`: a change-log entry, i.e. the messages associated to a
version and its release date (`None` values become `Option.none`). -/
structure ChangeLogEntry where
  date : Option (List Char)
  version : Option (List Int)
  messages : List MsgGroup
deriving DecidableEq, Repr

/-- The entry `ChangeLogEntry()` built with both defaults (the "current" entry). -/
def ChangeLogEntry.empty : ChangeLogEntry :=
  { date := none, version := none, messages := [] }

/-- Source `ChangeLogEntry.__init__(date, version)` with a string `version` argument:
a truthy (nonempty) version string is parsed through `Version`, which can
raise `ValueError`. -/
def ChangeLogEntry.init (date : Option (List Char)) (version : List Char) :
    Except PyErr ChangeLogEntry :=
  if version ≠ [] then
    (parseVersion version).map fun v => { date := date, version := some v, messages := [] }
  else
    .ok { date := date, version := none, messages := [] }

/-- Source `ChangeLogEntry.add_message` : `self.messages.append([msg])`. -/
def ChangeLogEntry.add_message (e : ChangeLogEntry) (msg : List Char) : ChangeLogEntry :=
  { e with messages := e.messages ++ [(msg, [])] }

/-- Replace the final element of a list (`xs[-1] = f xs[-1]`). -/
def updateLast (f : α → α) : List α → List α
  | [] => []
  | [a] => [f a]
  | a :: b :: rest => a :: updateLast f (b :: rest)

/-- Source `ChangeLogEntry.complete_latest_message` : when `self.messages` is empty
the source prints `'Ignoring %r (unexpected format)'` to `sys.stderr` (the
returned `Bool`) and then unconditionally runs `self.messages[-1].append(...)`,
which raises `IndexError` on the empty list (`none`); otherwise the raw line is
appended to the last message group. -/
def ChangeLogEntry.complete_latest_message (e : ChangeLogEntry) (msg_suite : List Char) :
    Bool × Option ChangeLogEntry :=
  if e.messages = [] then
    (true, none)
  else
    (false, some { e with messages := updateLast (fun g => (g.1, g.2 ++ [msg_suite])) e.messages })

/-- Truthiness of the `version` attribute (`None` and the empty tuple are falsy). -/
def versionTruthy : Option (List Int) → Bool
  | none => false
  | some v => v ≠ []

/-- Source `ChangeLogEntry.write` : the characters written to the stream,
`'%s  --  %s\n' % (self.date or '', self.version or '')` followed by
`'%s%s %s\n' % (INDENT, BULLET, msg[0])` and the verbatim continuation lines
for each message. -/
def ChangeLogEntry.writeOut (e : ChangeLogEntry) : List Char :=
  (e.date.getD []) ++ "  --  ".data
    ++ (match e.version with
        | none => []
        | some v => renderVersion v)
    ++ ['\n']
    ++ e.messages.foldr
        (fun g acc => INDENT ++ [BULLET, ' '] ++ g.1 ++ ['\n'] ++ g.2.foldr (· ++ ·) [] ++ acc) []

/-- Source class `ChangeLog` : object representation of a whole ChangeLog file (the bound
file path itself is I/O plumbing and is not part of the pure state). -/
structure ChangeLog where
  title : List Char
  additional_content : List Char
  entries : List ChangeLogEntry
deriving DecidableEq, Repr

/-- Source `ChangeLog.add_entry`. -/
def ChangeLog.add_entry (cl : ChangeLog) (entry : ChangeLogEntry) : ChangeLog :=
  { cl with entries := cl.entries ++ [entry] }

/-- Source `ChangeLog.get_entry(version='', create=None)` : returns the produced /
found entry together with the final state of the log (Python mutates `self`;
on a raise the log is returned as it stands at that point).  When a version is
requested on a nonempty log, line 152 runs `self.version_class(version)`, but
`version_class` is an attribute of `ChangeLogEntry` (line 90), not of
`ChangeLog`, so the lookup raises `AttributeError` before any parsing and
before the scan loop of lines 153-156 can run: that branch is dead code. -/
def ChangeLog.get_entry (cl : ChangeLog) (version : List Char := [])
    (create : Option Bool := none) : Except PyErr ChangeLogEntry × ChangeLog :=
  if cl.entries = [] ∧ (version ≠ [] ∨ create ≠ some true) then
    (.error .noEntry, cl)
  else
    let cl := if cl.entries = [] then { cl with entries := [ChangeLogEntry.empty] } else cl
    if version = [] then
      match cl.entries with
      | [] => (.error .indexError, cl)
      | e :: rest =>
        if versionTruthy e.version ∧ create.isSome then
          (.ok ChangeLogEntry.empty, { cl with entries := ChangeLogEntry.empty :: e :: rest })
        else
          (.ok e, cl)
    else
      (.error .attributeError, cl)

/-- Source `ChangeLog.add(msg, create=None)` : `get_entry(create=create)` returns
(an alias of) `entries[0]`, to which the message is added in place. -/
def ChangeLog.add (cl : ChangeLog) (msg : List Char) (create : Option Bool := none) :
    Except PyErr ChangeLog :=
  match cl.get_entry [] create with
  | (.error e, _) => .error e
  | (.ok _, cl') =>
    match cl'.entries with
    | [] => .error .indexError
    | e :: rest => .ok { cl' with entries := e.add_message msg :: rest }

/-- State of the `ChangeLog.load` loop.  In the source, `last` aliases the
entry most recently appended to `self.entries`; here the already-final entries
live in `done` and the entry `last` points to is held out in `last`, so the
log's entries are `done ++ last.toList` at every step. -/
structure LoadSt where
  title : List Char
  additional_content : List Char
  done : List ChangeLogEntry
  last : Option ChangeLogEntry
deriving DecidableEq, Repr

/-- One iteration of the `for line in stream.readlines()` body of
`ChangeLog.load`. -/
def processLine (st : LoadSt) (line : List Char) : Except PyErr LoadSt :=
  let sline := pyStrip line
  let words := pyWords sline
  if words = [['-', '-']] then
    .ok { st with done := st.done ++ st.last.toList, last := some ChangeLogEntry.empty }
  else if words.length = 3 ∧ words.getD 1 [] = ['-', '-'] then
    match ChangeLogEntry.init (some (words.getD 0 [])) (words.getD 2 []) with
    | .error e => .error e
    | .ok ent => .ok { st with done := st.done ++ st.last.toList, last := some ent }
  else
    match st.last with
    | none =>
      if sline = [] then .ok st
      else .ok { st with title := st.title ++ line }
    | some lastE =>
      if sline.head? = some BULLET then
        .ok { st with last := some (lastE.add_message (pyStrip sline.tail)) }
      else if lastE.messages ≠ [] then
        match lastE.complete_latest_message line with
        | (_, some lastE') => .ok { st with last := some lastE' }
        | (_, none) => .error .indexError
      else
        .ok { st with additional_content := st.additional_content ++ line }

/-- The `for` loop of `ChangeLog.load`. -/
def loadLoop (st : LoadSt) : List (List Char) → Except PyErr LoadSt
  | [] => .ok st
  | line :: rest =>
    match processLine st line with
    | .error e => .error e
    | .ok st' => loadLoop st' rest

/-- The load-loop state at the top of `ChangeLog.load` (`last = None`). -/
def initSt (cl : ChangeLog) : LoadSt :=
  { title := cl.title, additional_content := cl.additional_content,
    done := cl.entries, last := none }

/-- Source `ChangeLog.load` applied to the lines of an opened file. -/
def loadLines (cl : ChangeLog) (lines : List (List Char)) : Except PyErr ChangeLog :=
  match loadLoop (initSt cl) lines with
  | .error e => .error e
  | .ok st => .ok { title := st.title, additional_content := st.additional_content,
                    entries := st.done ++ st.last.toList }

/-- Source `ChangeLog.load` : `none` stands for a backing file that cannot be opened
(`except IOError: return` — the method returns with `self` untouched),
`some lines` for a file whose `readlines()` yields `lines`. -/
def ChangeLog.load (cl : ChangeLog) (file : Option (List (List Char))) :
    Except PyErr ChangeLog :=
  match file with
  | none => .ok cl
  | some lines => loadLines cl lines

/-- Source `ChangeLog.__init__(changelog_file, title='')` : field initialisation
followed by `self.load()`. -/
def ChangeLog.init (file : Option (List (List Char))) (title : List Char := []) :
    Except PyErr ChangeLog :=
  ChangeLog.load { title := title, additional_content := [], entries := [] } file

/-- A freshly constructed `ChangeLog` whose backing file is absent. -/
def freshLog : ChangeLog := { title := [], additional_content := [], entries := [] }

/-- Source `ChangeLog.format_title` : `'%s\n\n' % self.title.strip()`. -/
def ChangeLog.format_title (cl : ChangeLog) : List Char :=
  pyStrip cl.title ++ ['\n', '\n']

/-- Source `ChangeLog.write` : the formatted title followed by each entry's output;
`additional_content` is never consulted. -/
def ChangeLog.writeOut (cl : ChangeLog) : List Char :=
  cl.format_title ++ cl.entries.foldr (fun e acc => e.writeOut ++ acc) []

/-! ## Well-formed change log texts (for the round-trip property)

A well-formed log is the textual shape described in the module docstring of
the source: a title block, then a blank line, then entries (optionally one
leading current entry, then dated entries), each entry a header line followed
by bulleted messages with verbatim continuation lines.  The `lines` of such a
log are exactly what `ChangeLog.write` emits for the corresponding model. -/

/-- A message of a well-formed log: the (stripped) first line and the
continuation lines' contents (without their newline characters). -/
structure WFMessage where
  first : List Char
  conts : List (List Char)
deriving DecidableEq, Repr

/-- An entry of a well-formed log: `none` header is the current (dateless,
versionless) entry, `some (date, version)` a dated release. -/
structure WFEntry where
  header : Option (List Char × List Nat)
  messages : List WFMessage
deriving DecidableEq, Repr

/-- A well-formed log: title lines (without newlines) and entries. -/
structure WFLog where
  titleLines : List (List Char)
  entries : List WFEntry
deriving DecidableEq, Repr

/-- The bulleted first line of a message. -/
def bulletLine (f : List Char) : List Char := INDENT ++ [BULLET, ' '] ++ f ++ ['\n']

/-- The physical lines of one message. -/
def WFMessage.lines (m : WFMessage) : List (List Char) :=
  bulletLine m.first :: m.conts.map (· ++ ['\n'])

/-- The header line of an entry (exactly what `ChangeLogEntry.write` emits). -/
def headerLine : Option (List Char × List Nat) → List Char
  | none => "  --  ".data ++ ['\n']
  | some (d, v) => d ++ "  --  ".data ++ renderVerNat v ++ ['\n']

/-- The physical lines of one entry. -/
def WFEntry.lines (e : WFEntry) : List (List Char) :=
  headerLine e.header :: (e.messages.map WFMessage.lines).flatten

/-- The physical lines of a well-formed log: title block, one blank separator
line, then the entries. -/
def WFLog.lines (w : WFLog) : List (List Char) :=
  w.titleLines.map (· ++ ['\n']) ++ (['\n'] :: (w.entries.map WFEntry.lines).flatten)

/-- The full text of a well-formed log. -/
def WFLog.text (w : WFLog) : List Char := w.lines.flatten

/-- The message group `load` builds for a well-formed message. -/
def WFMessage.toGroup (m : WFMessage) : MsgGroup :=
  (m.first, m.conts.map (· ++ ['\n']))

/-- The `ChangeLogEntry` that `load` builds for a well-formed entry. -/
def WFEntry.toEntry (e : WFEntry) : ChangeLogEntry :=
  { date := e.header.map Prod.fst,
    version := e.header.map (fun h => h.2.map Int.ofNat),
    messages := e.messages.map WFMessage.toGroup }

/-- The `ChangeLog` that `load` builds for a well-formed log. -/
def WFLog.expected (w : WFLog) : ChangeLog :=
  { title := (w.titleLines.map (· ++ ['\n'])).flatten,
    additional_content := [],
    entries := w.entries.map WFEntry.toEntry }

/-- First character exists and is not whitespace. -/
def headNS : List Char → Bool
  | [] => false
  | c :: _ => !pySpace c

/-- Last character exists and is not whitespace. -/
def lastNS (l : List Char) : Bool := headNS l.reverse

/-- The line is the `'--'` current-entry marker of the load state machine. -/
def isCurrentMarker (l : List Char) : Bool := lineWords l == [['-', '-']]

/-- The line is a `<date> -- <version>` marker of the load state machine. -/
def isDatedMarker (l : List Char) : Bool :=
  (lineWords l).length == 3 && (lineWords l).getD 1 [] == ['-', '-']

/-- A title line: non-blank, fully stripped at both ends, a single physical
line, and not an entry marker. -/
def goodTitleLine (c : List Char) : Bool :=
  headNS c && lastNS c && c.all (· != '\n') &&
  !isCurrentMarker (c ++ ['\n']) && !isDatedMarker (c ++ ['\n'])

/-- A continuation line's content: a single physical line that the state
machine classifies neither as a marker nor as a bullet. -/
def goodContLine (c : List Char) : Bool :=
  c.all (· != '\n') &&
  !isCurrentMarker (c ++ ['\n']) && !isDatedMarker (c ++ ['\n']) &&
  !((pyStrip (c ++ ['\n'])).head? == some BULLET)

/-- A well-formed message: stripped nonempty single-line first line whose
words do not make the bulleted line a dated marker, plus good continuations. -/
def goodMessage (m : WFMessage) : Bool :=
  headNS m.first && lastNS m.first && m.first.all (· != '\n') &&
  (match pyWords m.first with
   | [a, _] => !(a == ['-', '-'])
   | _ => true) &&
  m.conts.all goodContLine

/-- A well-formed entry: a dated header carries a nonempty whitespace-free
date token and a nonempty version, and all messages are well formed. -/
def goodEntry (e : WFEntry) : Bool :=
  (match e.header with
   | none => true
   | some (d, v) => !d.isEmpty && d.all (fun ch => !pySpace ch) && !v.isEmpty) &&
  e.messages.all goodMessage

/-- A well-formed log: nonempty title block of good lines, good entries, and
at most the first entry may be the current (header-less) one. -/
def wellFormed (w : WFLog) : Bool :=
  !w.titleLines.isEmpty &&
  w.titleLines.all goodTitleLine &&
  w.entries.all goodEntry &&
  (match w.entries with
   | [] => true
   | _ :: rest => rest.all (fun e => e.header.isSome))

/-- The sample change log of the source module docstring. -/
def sampleLog : WFLog :=
  { titleLines := ["Change log for project Yoo".data, "==========================".data],
    entries :=
      [ { header := none,
          messages := [{ first := "add a new functionnality".data, conts := [] }] },
        { header := some ("2002-02-01".data, [0, 1, 1]),
          messages := [{ first := "fix bug #435454".data, conts := [] },
                       { first := "fix bug #434356".data, conts := [] }] },
        { header := some ("2002-01-01".data, [0, 1]),
          messages := [{ first := "initial release".data, conts := [] }] } ] }

/-- A two-entry log used to exercise the `get_entry` version scan. -/
def twoEntryLog : ChangeLog :=
  { title := "Change log for project Yoo\n".data,
    additional_content := [],
    entries :=
      [ { date := none, version := none, messages := [("pending".data, [])] },
        { date := some "2002-01-01".data, version := some [0, 1],
          messages := [("initial release".data, [])] } ] }

/-- Lines containing several malformed cases that `load` tolerates: a stray
non-bullet line right after an entry header (no message yet), an out-of-place
continuation line, a four-word line containing `--`, and a blank line. -/
def messyLines : List (List Char) :=
  [ "A title\n".data,
    " --\n".data,
    "stray line, no message yet\n".data,
    "* first message\n".data,
    "  continuation line\n".data,
    "2002-01-01 -- 0.1\n".data,
    "junk -- with four words\n".data,
    "\n".data ]

/-! ## Helper lemmas -/

theorem verLt_self_append (xs : List Int) (y : Int) (ys : List Int) :
    verLt xs (xs ++ y :: ys) = true := by
  induction xs with
  | nil => rfl
  | cons a rest ih => simp [verLt, ih]

theorem isOkE_map (f : α → β) (x : Except ε α) : isOkE (x.map f) = isOkE x := by
  cases x <;> rfl

theorem isOkE_parseSegs (L : List (List Char)) :
    isOkE (parseSegs L) = L.all (fun s => isOkE (pyInt s)) := by
  induction L with
  | nil => rfl
  | cons s rest ih =>
    simp only [parseSegs, List.all_cons]
    cases h : pyInt s with
    | error e => simp [isOkE]
    | ok i => rw [isOkE_map, ih]; simp [isOkE]

/-! ## Claim theorems -/

/-- C2 (code_bug evaluation): calling `complete_latest_message` on an entry
with no messages prints the `'Ignoring ...'` diagnostic (first component
`true`) but then raises `IndexError` from `self.messages[-1]` (second
component `none`), instead of being the no-op the diagnostic announces. -/
theorem complete_latest_message_empty_crashes :
    ChangeLogEntry.complete_latest_message ChangeLogEntry.empty ("  more\n".data)
      = (true, none) := rfl

/-- C4 (counterexample): `add("fix X")` with `create` unset on a fresh
ChangeLog whose backing file is absent does not create a current entry: it
raises `NoEntry` (the claim says an entry is created and the message
appended). -/
theorem add_fresh_counterexample :
    ChangeLog.init none [] = .ok freshLog
    ∧ ChangeLog.add freshLog ("fix X".data) none = .error .noEntry :=
  ⟨rfl, rfl⟩

/-- C4 (amended): on a fresh (file-absent) ChangeLog, `add("fix X",
create=True)` creates a current (dateless, versionless) entry and appends one
message group with first line `"fix X"`; with `create` unset, `add` instead
raises `NoEntry`. -/
theorem add_fresh_amended :
    ChangeLog.add freshLog ("fix X".data) (some true)
      = .ok { title := [], additional_content := [],
              entries := [{ date := none, version := none,
                            messages := [("fix X".data, [])] }] }
    ∧ ChangeLog.add freshLog ("fix X".data) none = .error .noEntry :=
  ⟨rfl, rfl⟩

/-- C5: on an empty log, `get_entry` raises `NoEntry` whenever a version is
requested or `create` is not truthy, and with no version and `create=True` it
appends a brand-new empty (dateless, versionless) entry and returns it. -/
theorem get_entry_empty_spec (cl : ChangeLog) (version : List Char)
    (create : Option Bool) (h : cl.entries = []) :
    ((version ≠ [] ∨ create ≠ some true) →
        cl.get_entry version create = (.error .noEntry, cl))
    ∧ cl.get_entry [] (some true) =
        (.ok ChangeLogEntry.empty, { cl with entries := [ChangeLogEntry.empty] }) := by
  constructor
  · intro hvc
    unfold ChangeLog.get_entry
    rw [if_pos ⟨h, hvc⟩]
  · unfold ChangeLog.get_entry
    rw [if_neg (by simp)]
    simp [h, versionTruthy, ChangeLogEntry.empty]

/-- C5 witness. -/
theorem get_entry_empty_spec_witness :
    freshLog.get_entry ("0.1".data) none = (.error .noEntry, freshLog)
    ∧ freshLog.get_entry [] (some true) =
        (.ok ChangeLogEntry.empty, { freshLog with entries := [ChangeLogEntry.empty] }) :=
  ⟨(get_entry_empty_spec freshLog ("0.1".data) none rfl).1 (Or.inl (by decide)),
   (get_entry_empty_spec freshLog [] (some true) rfl).2⟩

/-- C6 (code_bug evaluation): requesting version `0.1` on a two-entry log
that holds a structurally matching entry does not scan and return it — the
attribute lookup `self.version_class` on the `ChangeLog` instance raises
`AttributeError` (the attribute exists only on `ChangeLogEntry`), so
`get_entry` crashes before the scan of lines 153-156 and never raises
`EntryNotFound` either. -/
theorem get_entry_version_scan_bug :
    (twoEntryLog.entries.getD 1 ChangeLogEntry.empty).version = some [0, 1]
    ∧ parseVersion ("0.1".data) = .ok [0, 1]
    ∧ twoEntryLog.get_entry ("0.1".data) none = (.error .attributeError, twoEntryLog) :=
  ⟨rfl, rfl, rfl⟩

/-- C9 (code_bug evaluation): requesting the unmatched version `9.9` on a
two-entry log raises `AttributeError` (the missing `ChangeLog.version_class`
of line 152), not `EntryNotFoundError` as the claim states, with `create=True`
as with `create` unset; the log comes back unchanged. -/
theorem get_entry_create_version_bug :
    twoEntryLog.entries.all (fun e => e.version != some [9, 9]) = true
    ∧ twoEntryLog.get_entry ("9.9".data) (some true) = (.error .attributeError, twoEntryLog)
    ∧ twoEntryLog.get_entry ("9.9".data) none = (.error .attributeError, twoEntryLog) :=
  ⟨by decide, rfl, rfl⟩

/-- C7: Version equality and ordering are structural lexicographic tuple
comparison without zero-padding: `Version("1.2.0") > Version("1.1.9")`,
`Version("1.2") == Version("1.2.0")` is false (different lengths), and every
tuple is smaller than any extension of itself by at least one component. -/
theorem version_ordering_structural :
    parseVersion ("1.1.9".data) = .ok [1, 1, 9]
    ∧ parseVersion ("1.2.0".data) = .ok [1, 2, 0]
    ∧ verLt [1, 1, 9] [1, 2, 0] = true
    ∧ parseVersion ("1.2".data) = .ok [1, 2]
    ∧ (([1, 2] : List Int) == [1, 2, 0]) = false
    ∧ verLt [1, 2] [1, 2, 0] = true
    ∧ ∀ (xs : List Int) (y : Int) (ys : List Int), verLt xs (xs ++ y :: ys) = true :=
  ⟨rfl, rfl, rfl, rfl, rfl, rfl, verLt_self_append⟩

/-- C8 (counterexample): `Version("-1.2")` does not fail — Python `int`
accepts a sign — so construction neither parses segments as non-negative
integers nor fails on the non-(unsigned-)numeric segment `-1`. -/
theorem version_parse_counterexample :
    parseVersion ("-1.2".data) = .ok [-1, 2] := rfl

/-- C8 (amended): Version construction from a string splits on `'.'` and
parses each segment with Python `int` semantics (optional surrounding
whitespace, optional sign, then digits), succeeding exactly when every
segment parses; a failure (`ValueError`, the spec's `FormatError`) is not
caught internally and propagates unchanged to the caller of `Version`
construction, `ChangeLogEntry.__init__` (and from there out of `load`). -/
theorem version_parse_amended :
    (∀ s, isOkE (parseVersion s) = (splitDot s).all (fun seg => isOkE (pyInt seg)))
    ∧ ∀ (d : Option (List Char)) (v : List Char) (e : PyErr),
        v ≠ [] → parseVersion v = .error e → ChangeLogEntry.init d v = .error e := by
  constructor
  · intro s
    exact isOkE_parseSegs (splitDot s)
  · intro d v e hv hp
    unfold ChangeLogEntry.init
    rw [if_pos hv, hp]
    rfl

/-- C8 witness: `Version("1.a")` fails with the `ValueError` and constructing
an entry with that version string propagates it. -/
theorem version_parse_amended_witness :
    isOkE (parseVersion ("1.a".data))
        = (splitDot ("1.a".data)).all (fun seg => isOkE (pyInt seg))
    ∧ ChangeLogEntry.init (some ("2002-02-01".data)) ("1.a".data) = .error .valueError :=
  ⟨version_parse_amended.1 ("1.a".data),
   version_parse_amended.2 (some ("2002-02-01".data)) ("1.a".data) .valueError
     (by decide) rfl⟩

/-- C10: when the backing file cannot be opened, `load` returns without
touching any field: the constructed ChangeLog keeps the constructor-supplied
title (even a nonempty one), an empty `additional_content`, and no entries. -/
theorem init_unopenable_frame (t : List Char) :
    ChangeLog.init none t
      = .ok { title := t, additional_content := [], entries := [] } := rfl

theorem isOkE_init (d : Option (List Char)) (v : List Char)
    (h : isOkE (parseVersion v) = true) :
    isOkE (ChangeLogEntry.init d v) = true := by
  unfold ChangeLogEntry.init
  split
  · rw [isOkE_map]; exact h
  · rfl

theorem processLine_ok (st : LoadSt) (l : List Char)
    (h : isDatedMarker l = true → isOkE (parseVersion ((lineWords l).getD 2 [])) = true) :
    isOkE (processLine st l) = true := by
  unfold processLine
  by_cases h1 : pyWords (pyStrip l) = [['-', '-']]
  · simp [h1, isOkE]
  · by_cases h2 : (pyWords (pyStrip l)).length = 3
        ∧ (pyWords (pyStrip l)).getD 1 [] = ['-', '-']
    · have hdm : isDatedMarker l = true := by
        have a := h2.1
        have b := h2.2
        unfold isDatedMarker lineWords
        rw [a, b]
        rfl
      have hok := h hdm
      simp only [if_neg h1, if_pos h2]
      have hinit := isOkE_init (some ((pyWords (pyStrip l)).getD 0 []))
        ((pyWords (pyStrip l)).getD 2 []) hok
      cases hi : ChangeLogEntry.init (some ((pyWords (pyStrip l)).getD 0 []))
          ((pyWords (pyStrip l)).getD 2 []) with
      | error e => rw [hi] at hinit; simp [isOkE] at hinit
      | ok ent => rfl
    · simp only [if_neg h1, if_neg h2]
      cases hl : st.last with
      | none =>
        by_cases hs : pyStrip l = [] <;> simp [hs, isOkE]
      | some lastE =>
        by_cases hb : (pyStrip l).head? = some BULLET
        · simp [hb, isOkE]
        · by_cases hm : lastE.messages ≠ []
          · simp only [if_neg hb, if_pos hm]
            unfold ChangeLogEntry.complete_latest_message
            simp [hm, isOkE]
          · simp [hb, hm, isOkE]

theorem loadLoop_ok (lines : List (List Char)) (st : LoadSt)
    (h : ∀ l ∈ lines,
        isDatedMarker l = true → isOkE (parseVersion ((lineWords l).getD 2 [])) = true) :
    isOkE (loadLoop st lines) = true := by
  induction lines generalizing st with
  | nil => rfl
  | cons l rest ih =>
    simp only [loadLoop]
    have hok := processLine_ok st l (h l (by simp))
    cases hp : processLine st l with
    | error e => rw [hp] at hok; simp [isOkE] at hok
    | ok st' => exact ih st' (fun l' h' => h l' (by simp [h']))

/-- C3 (counterexample): `load` can abort mid-file: a dated entry marker whose
version string has a non-integer segment raises `ValueError` out of the
`Version` constructor, so not every input is processed to the end. -/
theorem load_counterexample :
    loadLines freshLog ["2002-02-01 -- a.b\n".data] = .error .valueError := rfl

/-- C3 (amended): provided every dated-marker line (exactly three words with
middle word `--`) carries a version string whose dot-segments all parse as
Python ints, `load` processes all lines to the end without raising: stray
continuation lines, unclassifiable lines and other malformed lines are
tolerated or diverted. -/
theorem load_no_abort_amended (cl : ChangeLog) (lines : List (List Char))
    (h : ∀ l ∈ lines,
        isDatedMarker l = true → isOkE (parseVersion ((lineWords l).getD 2 [])) = true) :
    isOkE (loadLines cl lines) = true := by
  unfold loadLines
  have hok := loadLoop_ok lines (initSt cl) h
  cases hp : loadLoop (initSt cl) lines with
  | error e => rw [hp] at hok; simp [isOkE] at hok
  | ok st => rfl

/-- C3 witness: a text full of malformed lines (stray continuation before any
message, junk after a header, a `--` inside a four-word line, blanks) loads
without raising. -/
theorem load_no_abort_amended_witness :
    (∀ l ∈ messyLines,
        isDatedMarker l = true → isOkE (parseVersion ((lineWords l).getD 2 [])) = true)
    ∧ isOkE (loadLines freshLog messyLines) = true :=
  ⟨by decide, load_no_abort_amended freshLog messyLines (by decide)⟩

/-! ## Lemmas about stripping and word splitting -/

theorem headNS_ne_nil (l : List Char) (h : headNS l = true) : l ≠ [] := by
  cases l with
  | nil => simp [headNS] at h
  | cons c rest => simp

theorem headNS_append (l m : List Char) (h : headNS l = true) : headNS (l ++ m) = true := by
  cases l with
  | nil => simp [headNS] at h
  | cons c rest => simpa [headNS] using h

theorem lastNS_append (A c : List Char) (h : lastNS c = true) : lastNS (A ++ c) = true := by
  unfold lastNS at *
  rw [List.reverse_append]
  exact headNS_append _ _ h

theorem dropWhile_nospace (l : List Char) (h : headNS l = true) :
    l.dropWhile pySpace = l := by
  cases l with
  | nil => rfl
  | cons c rest =>
    have hc : pySpace c = false := by simpa [headNS] using h
    simp [List.dropWhile_cons, hc]

theorem lstrip_of_headNS (l : List Char) (h : headNS l = true) : lstrip l = l :=
  dropWhile_nospace l h

theorem rstrip_of_lastNS (l : List Char) (h : lastNS l = true) : rstrip l = l := by
  unfold rstrip
  rw [dropWhile_nospace l.reverse h, List.reverse_reverse]

theorem rstrip_append_last (A c : List Char) (h : lastNS c = true) :
    rstrip (A ++ (c ++ ['\n'])) = A ++ c := by
  unfold rstrip
  rw [List.reverse_append, List.reverse_append, List.append_assoc]
  show (('\n' :: (c.reverse ++ A.reverse)).dropWhile pySpace).reverse = A ++ c
  rw [List.dropWhile_cons_of_pos (by decide), dropWhile_nospace _ (headNS_append _ _ h),
      List.reverse_append, List.reverse_reverse, List.reverse_reverse]

theorem pyStrip_line (c : List Char) (h1 : headNS c = true) (h2 : lastNS c = true) :
    pyStrip (c ++ ['\n']) = c := by
  unfold pyStrip
  rw [lstrip_of_headNS _ (headNS_append c ['\n'] h1)]
  have := rstrip_append_last [] c h2
  simpa using this

theorem pyStrip_self (c : List Char) (h1 : headNS c = true) (h2 : lastNS c = true) :
    pyStrip c = c := by
  unfold pyStrip
  rw [lstrip_of_headNS _ h1, rstrip_of_lastNS _ h2]

theorem pyStrip_flatten_title (cs : List (List Char)) (hne : cs ≠ [])
    (h : ∀ c ∈ cs, headNS c = true ∧ lastNS c = true) :
    pyStrip ((cs.map (· ++ ['\n'])).flatten) ++ ['\n'] = (cs.map (· ++ ['\n'])).flatten := by
  unfold pyStrip
  have hl : lstrip ((cs.map (· ++ ['\n'])).flatten) = (cs.map (· ++ ['\n'])).flatten := by
    cases cs with
    | nil => simp at hne
    | cons c0 rest =>
      apply lstrip_of_headNS
      simp only [List.map_cons, List.flatten_cons]
      exact headNS_append _ _ (headNS_append _ _ (h c0 (by simp)).1)
  rw [hl]
  rcases List.eq_nil_or_concat cs with rfl | ⟨L, b, rfl⟩
  · simp at hne
  · rw [List.concat_eq_append] at h ⊢
    rw [List.map_append, List.flatten_append]
    simp only [List.map_cons, List.map_nil, List.flatten_cons, List.flatten_nil,
      List.append_nil]
    rw [rstrip_append_last _ _ (h b (by simp)).2, List.append_assoc]

theorem wordsAux_nospace (w : List Char) (hw : w.all (fun c => !pySpace c) = true)
    (l acc : List Char) : wordsAux (w ++ l) acc = wordsAux l (w.reverse ++ acc) := by
  induction w generalizing acc with
  | nil => simp
  | cons c w' ih =>
    simp only [List.all_cons, Bool.and_eq_true, Bool.not_eq_true'] at hw
    simp only [List.cons_append, wordsAux, hw.1, Bool.false_eq_true, if_false,
      List.append_eq]
    rw [ih hw.2]
    simp [List.append_assoc]

theorem wordsAux_space (c : Char) (hc : pySpace c = true) (l acc : List Char) :
    wordsAux (c :: l) acc =
      if acc = [] then wordsAux l [] else acc.reverse :: wordsAux l [] := by
  simp [wordsAux, hc]

theorem pyWords_ends (w : List Char) (hne : w ≠ [])
    (hw : w.all (fun c => !pySpace c) = true) : pyWords w = [w] := by
  unfold pyWords
  rw [← List.append_nil w, wordsAux_nospace w hw]
  simp [wordsAux, hne]

theorem pyWords_header (d vstr : List Char) (hd : d ≠ [])
    (hdns : d.all (fun c => !pySpace c) = true) (hv : vstr ≠ [])
    (hvns : vstr.all (fun c => !pySpace c) = true) :
    pyWords (d ++ (' ' :: ' ' :: '-' :: '-' :: ' ' :: ' ' :: vstr)) = [d, ['-', '-'], vstr] := by
  unfold pyWords
  rw [wordsAux_nospace d hdns]
  rw [wordsAux_space ' ' (by decide)]
  rw [if_neg (by simp [hd])]
  rw [List.reverse_append, List.reverse_reverse]
  simp only [List.reverse_nil, List.nil_append]
  rw [wordsAux_space ' ' (by decide), if_pos rfl]
  rw [show ('-' :: '-' :: ' ' :: ' ' :: vstr) = ['-', '-'] ++ (' ' :: ' ' :: vstr) from rfl]
  rw [wordsAux_nospace ['-', '-'] (by decide)]
  rw [wordsAux_space ' ' (by decide), if_neg (by simp)]
  rw [wordsAux_space ' ' (by decide), if_pos rfl]
  rw [← List.append_nil vstr, wordsAux_nospace vstr hvns]
  simp [wordsAux, hv]

theorem pyWords_bullet (f : List Char) : pyWords ('*' :: ' ' :: f) = ['*'] :: pyWords f := by
  unfold pyWords
  rw [show ('*' :: ' ' :: f) = ['*'] ++ (' ' :: f) from rfl,
      wordsAux_nospace ['*'] (by decide)]
  rw [wordsAux_space ' ' (by decide), if_neg (by simp)]
  rfl

/-! ## Lemmas about digits and version rendering -/

theorem digitChar_isDigit (d : Nat) (h : d < 10) : (digitChar d).isDigit = true := by
  interval_cases d <;> decide

theorem digitVal_digitChar (d : Nat) (h : d < 10) : digitVal (digitChar d) = d := by
  interval_cases d <;> decide

theorem digitsVal_append_singleton (A : List Char) (c : Char) :
    digitsVal (A ++ [c]) = 10 * digitsVal A + digitVal c := by
  unfold digitsVal
  rw [List.foldl_append]
  rfl

theorem natToCharsAux_spec (fuel : Nat) :
    ∀ n, n < fuel →
      natToCharsAux fuel n ≠ []
      ∧ (natToCharsAux fuel n).all Char.isDigit = true
      ∧ digitsVal (natToCharsAux fuel n) = n := by
  induction fuel with
  | zero => intro n hn; omega
  | succ fuel ih =>
    intro n hn
    by_cases h10 : n < 10
    · refine ⟨by simp [natToCharsAux, h10], ?_, ?_⟩
      · simp [natToCharsAux, h10, digitChar_isDigit n h10]
      · simp only [natToCharsAux, if_pos h10]
        show digitsVal ([] ++ [digitChar n]) = n
        rw [digitsVal_append_singleton]
        simp [digitsVal, digitVal_digitChar n h10]
    · have hdiv : n / 10 < fuel := by
        have h1 : n / 10 < n := Nat.div_lt_self (by omega) (by omega)
        omega
      obtain ⟨ihne, ihall, ihval⟩ := ih (n / 10) hdiv
      simp only [natToCharsAux, if_neg h10]
      refine ⟨by simp, ?_, ?_⟩
      · rw [List.all_append, ihall]
        simp [digitChar_isDigit (n % 10) (Nat.mod_lt n (by omega))]
      · rw [digitsVal_append_singleton, ihval,
          digitVal_digitChar (n % 10) (Nat.mod_lt n (by omega))]
        omega

theorem natToChars_spec (n : Nat) :
    natToChars n ≠ []
    ∧ (natToChars n).all Char.isDigit = true
    ∧ digitsVal (natToChars n) = n :=
  natToCharsAux_spec (n + 1) n (Nat.lt_succ_self n)

theorem pySpace_eq_false_of_isDigit (c : Char) (h : c.isDigit = true) :
    pySpace c = false := by
  by_contra hc
  have hc' : pySpace c = true := by revert hc; cases pySpace c <;> simp
  unfold pySpace at hc'
  simp only [Bool.or_eq_true, beq_iff_eq] at hc'
  rcases hc' with ((((rfl | rfl) | rfl) | rfl) | rfl) | rfl <;> exact absurd h (by decide)

theorem nospace_of_digits (l : List Char) (h : l.all Char.isDigit = true) :
    l.all (fun c => !pySpace c) = true := by
  simp only [List.all_eq_true] at h ⊢
  intro c hc
  rw [pySpace_eq_false_of_isDigit c (h c hc)]
  rfl

theorem nodot_of_digits (l : List Char) (h : l.all Char.isDigit = true) :
    l.all (· != '.') = true := by
  simp only [List.all_eq_true] at h ⊢
  intro c hc
  have hd := h c hc
  simp only [bne_iff_ne, ne_eq]
  intro hdot
  subst hdot
  exact absurd hd (by decide)

theorem pyInt_digits (ds : List Char) (hne : ds ≠ []) (hall : ds.all Char.isDigit = true) :
    pyInt ds = .ok (Int.ofNat (digitsVal ds)) := by
  have h1 : headNS ds = true := by
    cases ds with
    | nil => simp at hne
    | cons c rest =>
      simp only [List.all_cons, Bool.and_eq_true] at hall
      simp [headNS, pySpace_eq_false_of_isDigit c hall.1]
  have h2 : lastNS ds = true := by
    unfold lastNS
    cases hr : ds.reverse with
    | nil => exact absurd (by simpa using hr) hne
    | cons c rest =>
      have : c.isDigit = true := by
        have hmem : c ∈ ds := by
          have : c ∈ ds.reverse := by rw [hr]; simp
          simpa using this
        exact (List.all_eq_true.mp hall) c hmem
      simp [headNS, pySpace_eq_false_of_isDigit c this]
  cases ds with
  | nil => simp at hne
  | cons c rest =>
    have hall' := hall
    simp only [List.all_cons, Bool.and_eq_true] at hall'
    have hplus : c ≠ '+' := by intro hh; subst hh; exact absurd hall'.1 (by decide)
    have hminus : c ≠ '-' := by intro hh; subst hh; exact absurd hall'.1 (by decide)
    have hred : pyInt (c :: rest) = (digitsToNat (c :: rest)).map Int.ofNat := by
      unfold pyInt
      rw [pyStrip_self _ h1 h2]
      simp [hplus, hminus]
    rw [hred]
    unfold digitsToNat
    rw [if_pos ⟨by simp, hall⟩]
    rfl

theorem pyInt_natToChars (n : Nat) : pyInt (natToChars n) = .ok (Int.ofNat n) := by
  obtain ⟨hne, hall, hval⟩ := natToChars_spec n
  rw [pyInt_digits (natToChars n) hne hall, hval]

theorem splitDot_nodot (s : List Char) (h : s.all (· != '.') = true) :
    splitDot s = [s] := by
  induction s with
  | nil => rfl
  | cons c rest ih =>
    simp only [List.all_cons, Bool.and_eq_true, bne_iff_ne, ne_eq] at h
    simp [splitDot, h.1, ih (by simpa using h.2)]

theorem splitDot_append_dot (s : List Char) (h : s.all (· != '.') = true)
    (r : List Char) : splitDot (s ++ '.' :: r) = s :: splitDot r := by
  induction s with
  | nil => simp [splitDot]
  | cons c rest ih =>
    simp only [List.all_cons, Bool.and_eq_true, bne_iff_ne, ne_eq] at h
    simp only [List.cons_append, splitDot, if_neg h.1, List.append_eq]
    rw [ih (by simpa using h.2)]

theorem splitDot_joinDots (segs : List (List Char)) (hne : segs ≠ [])
    (h : ∀ s ∈ segs, s.all (· != '.') = true) :
    splitDot (joinDots segs) = segs := by
  induction segs with
  | nil => simp at hne
  | cons s rest ih =>
    cases rest with
    | nil => exact splitDot_nodot s (h s (by simp))
    | cons s' rest' =>
      show splitDot (s ++ '.' :: joinDots (s' :: rest')) = _
      rw [splitDot_append_dot s (h s (by simp)),
        ih (by simp) (fun x hx => h x (by simp [hx]))]

theorem parseSegs_natChars (v : List Nat) :
    parseSegs (v.map natToChars) = .ok (v.map Int.ofNat) := by
  induction v with
  | nil => rfl
  | cons n rest ih =>
    simp only [List.map_cons, parseSegs, pyInt_natToChars n, ih]
    rfl

theorem parseVersion_renderVerNat (v : List Nat) (h : v ≠ []) :
    parseVersion (renderVerNat v) = .ok (v.map Int.ofNat) := by
  unfold parseVersion renderVerNat
  rw [splitDot_joinDots (v.map natToChars) (by simpa using h)
    (fun s hs => by
      obtain ⟨n, _, rfl⟩ := List.mem_map.mp hs
      exact nodot_of_digits _ (natToChars_spec n).2.1)]
  exact parseSegs_natChars v

theorem joinDots_all (p : Char → Bool) (hdot : p '.' = true) (segs : List (List Char))
    (h : ∀ s ∈ segs, s.all p = true) : (joinDots segs).all p = true := by
  induction segs with
  | nil => rfl
  | cons s rest ih =>
    cases rest with
    | nil => exact h s (by simp)
    | cons s' rest' =>
      show ((s ++ '.' :: joinDots (s' :: rest')).all p) = true
      rw [List.all_append]
      simp only [h s (by simp), List.all_cons, hdot, Bool.true_and]
      exact ih (fun x hx => h x (by simp [hx]))

theorem renderVerNat_ne_nil (v : List Nat) (h : v ≠ []) : renderVerNat v ≠ [] := by
  unfold renderVerNat
  cases v with
  | nil => simp at h
  | cons n rest =>
    cases rest with
    | nil => exact (natToChars_spec n).1
    | cons n' rest' =>
      show natToChars n ++ '.' :: _ ≠ []
      simp

theorem renderVerNat_nospace (v : List Nat) :
    (renderVerNat v).all (fun c => !pySpace c) = true := by
  unfold renderVerNat
  apply joinDots_all _ (by decide)
  intro s hs
  obtain ⟨n, _, rfl⟩ := List.mem_map.mp hs
  exact nospace_of_digits _ (natToChars_spec n).2.1

theorem renderVersion_map_ofNat (v : List Nat) :
    renderVersion (v.map Int.ofNat) = renderVerNat v := by
  unfold renderVersion renderVerNat
  rw [List.map_map]
  rfl

/-! ## Classification of the well-formed line shapes by `processLine` -/

theorem not_current_of_bool (l : List Char) (h : isCurrentMarker l = false) :
    ¬(pyWords (pyStrip l) = [['-', '-']]) := by
  intro he
  unfold isCurrentMarker lineWords at h
  rw [he] at h
  simp at h

theorem not_dated_of_bool (l : List Char) (h : isDatedMarker l = false) :
    ¬((pyWords (pyStrip l)).length = 3 ∧ (pyWords (pyStrip l)).getD 1 [] = ['-', '-']) := by
  intro he
  unfold isDatedMarker lineWords at h
  rw [he.1, he.2] at h
  simp at h

theorem headNS_of_nospace (l : List Char) (hne : l ≠ [])
    (h : l.all (fun c => !pySpace c) = true) : headNS l = true := by
  cases l with
  | nil => simp at hne
  | cons c rest =>
    simp only [List.all_cons, Bool.and_eq_true] at h
    simpa [headNS] using h.1

theorem lastNS_of_nospace (l : List Char) (hne : l ≠ [])
    (h : l.all (fun c => !pySpace c) = true) : lastNS l = true := by
  unfold lastNS
  exact headNS_of_nospace l.reverse (by simpa using hne) (by simpa using h)

theorem processLine_blank (st : LoadSt) (h : st.last = none) :
    processLine st ['\n'] = .ok st := by
  simp only [processLine, h]
  rfl

theorem processLine_current (st : LoadSt) :
    processLine st ("  --  ".data ++ ['\n']) =
      .ok { st with
        done := st.done ++ st.last.toList
        last := some ChangeLogEntry.empty } := rfl

theorem processLine_title (st : LoadSt) (c : List Char) (h : st.last = none)
    (hg : goodTitleLine c = true) :
    processLine st (c ++ ['\n']) = .ok { st with title := st.title ++ (c ++ ['\n']) } := by
  have hg' := hg
  unfold goodTitleLine at hg'
  simp only [Bool.and_eq_true, Bool.not_eq_true'] at hg'
  obtain ⟨⟨⟨⟨h1, h2⟩, _⟩, h4⟩, h5⟩ := hg'
  have hs : pyStrip (c ++ ['\n']) = c := pyStrip_line c h1 h2
  have hcne : c ≠ [] := headNS_ne_nil c h1
  simp only [processLine, h]
  rw [if_neg (not_current_of_bool _ h4), if_neg (not_dated_of_bool _ h5), hs,
    if_neg hcne]

theorem processLine_dated (st : LoadSt) (d : List Char) (v : List Nat) (hd1 : d ≠ [])
    (hd2 : d.all (fun c => !pySpace c) = true) (hv : v ≠ []) :
    processLine st (headerLine (some (d, v))) =
      .ok { st with
        done := st.done ++ st.last.toList
        last := some { date := some d, version := some (v.map Int.ofNat),
                       messages := [] } } := by
  have hvne := renderVerNat_ne_nil v hv
  have hvns := renderVerNat_nospace v
  have hline : headerLine (some (d, v)) =
      (d ++ (' ' :: ' ' :: '-' :: '-' :: ' ' :: ' ' :: renderVerNat v)) ++ ['\n'] := by
    show ((d ++ "  --  ".data) ++ renderVerNat v) ++ ['\n'] =
      (d ++ (' ' :: ' ' :: '-' :: '-' :: ' ' :: ' ' :: renderVerNat v)) ++ ['\n']
    rw [List.append_assoc d "  --  ".data (renderVerNat v)]
    rfl
  have h1 : headNS (d ++ (' ' :: ' ' :: '-' :: '-' :: ' ' :: ' ' :: renderVerNat v)) = true :=
    headNS_append _ _ (headNS_of_nospace d hd1 hd2)
  have h2 : lastNS (d ++ (' ' :: ' ' :: '-' :: '-' :: ' ' :: ' ' :: renderVerNat v)) = true := by
    apply lastNS_append
    show lastNS ([' ', ' ', '-', '-', ' ', ' '] ++ renderVerNat v) = true
    exact lastNS_append _ _ (lastNS_of_nospace _ hvne hvns)
  have hs := pyStrip_line _ h1 h2
  have hw := pyWords_header d (renderVerNat v) hd1 hd2 hvne hvns
  rw [hline]
  simp only [processLine]
  rw [hs, hw]
  rw [if_neg (by simp), if_pos ⟨rfl, rfl⟩]
  have hinit : ChangeLogEntry.init (some ([d, ['-', '-'], renderVerNat v].getD 0 []))
      ([d, ['-', '-'], renderVerNat v].getD 2 []) =
      .ok { date := some d, version := some (v.map Int.ofNat), messages := [] } := by
    show ChangeLogEntry.init (some d) (renderVerNat v) = _
    unfold ChangeLogEntry.init
    rw [if_pos hvne, parseVersion_renderVerNat v hv]
    rfl
  rw [hinit]

theorem pyStrip_space_cons (f : List Char) (h1 : headNS f = true) (h2 : lastNS f = true) :
    pyStrip (' ' :: f) = f := by
  unfold pyStrip lstrip
  rw [List.dropWhile_cons_of_pos (by decide), dropWhile_nospace f h1,
    rstrip_of_lastNS f h2]

theorem processLine_bullet (st : LoadSt) (e : ChangeLogEntry) (f : List Char)
    (hst : st.last = some e) (h1 : headNS f = true) (h2 : lastNS f = true)
    (hb : (match pyWords f with
           | [a, _] => !(a == ['-', '-'])
           | _ => true) = true) :
    processLine st (bulletLine f) = .ok { st with last := some (e.add_message f) } := by
  have hs : pyStrip (bulletLine f) = '*' :: ' ' :: f := by
    unfold pyStrip
    rw [show lstrip (bulletLine f) = ['*', ' '] ++ (f ++ ['\n']) from rfl]
    exact rstrip_append_last ['*', ' '] f h2
  have hw : pyWords ('*' :: ' ' :: f) = ['*'] :: pyWords f := pyWords_bullet f
  have hcur : ¬(['*'] :: pyWords f = [['-', '-']]) := by
    intro he
    injection he with he1 _
    exact absurd he1 (by decide)
  have hdat : ¬((['*'] :: pyWords f).length = 3
      ∧ (['*'] :: pyWords f).getD 1 [] = ['-', '-']) := by
    rintro ⟨hl, hgd⟩
    rcases hpw : pyWords f with _ | ⟨a, _ | ⟨b, _ | ⟨c2, rest⟩⟩⟩ <;> rw [hpw] at hl hgd
    · simp at hl
    · simp at hl
    · rw [hpw] at hb
      simp only [Bool.not_eq_true'] at hb
      have : a = ['-', '-'] := by simpa using hgd
      rw [this] at hb
      simp at hb
    · simp at hl
  simp only [processLine, hst]
  rw [hs, hw, if_neg hcur, if_neg hdat,
    if_pos (show (('*' :: ' ' :: f) : List Char).head? = some BULLET from rfl)]
  show Except.ok _ = _
  rw [show (('*' :: ' ' :: f) : List Char).tail = ' ' :: f from rfl,
    pyStrip_space_cons f h1 h2]

theorem processLine_cont (st : LoadSt) (e : ChangeLogEntry) (c : List Char)
    (hst : st.last = some e) (hm : e.messages ≠ []) (hg : goodContLine c = true) :
    processLine st (c ++ ['\n']) =
      .ok { st with last := some { e with
            messages := updateLast (fun g => (g.1, g.2 ++ [c ++ ['\n']])) e.messages } } := by
  have hg' := hg
  unfold goodContLine at hg'
  simp only [Bool.and_eq_true, Bool.not_eq_true'] at hg'
  obtain ⟨⟨⟨_, h4⟩, h5⟩, h6⟩ := hg'
  have hb' : ¬((pyStrip (c ++ ['\n'])).head? = some BULLET) := by
    intro he
    rw [he] at h6
    simp at h6
  simp only [processLine, hst]
  rw [if_neg (not_current_of_bool _ h4), if_neg (not_dated_of_bool _ h5),
    if_neg hb', if_pos hm]
  unfold ChangeLogEntry.complete_latest_message
  rw [if_neg hm]

/-! ## The load loop over well-formed blocks -/

theorem updateLast_concat (f : α → α) (ms : List α) (g : α) :
    updateLast f (ms ++ [g]) = ms ++ [f g] := by
  induction ms with
  | nil => rfl
  | cons a rest ih =>
    cases rest with
    | nil => rfl
    | cons b rest' =>
      show a :: updateLast f ((b :: rest') ++ [g]) = a :: ((b :: rest') ++ [f g])
      rw [ih]

theorem loadLoop_cons_ok (st st' : LoadSt) (l : List Char) (rest : List (List Char))
    (h : processLine st l = .ok st') : loadLoop st (l :: rest) = loadLoop st' rest := by
  simp only [loadLoop, h]

theorem loadLoop_conts (cs : List (List Char)) (rest : List (List Char)) (st : LoadSt)
    (e : ChangeLogEntry) (ms : List MsgGroup) (g : MsgGroup) (hst : st.last = some e)
    (hms : e.messages = ms ++ [g]) (hg : cs.all goodContLine = true) :
    loadLoop st (cs.map (· ++ ['\n']) ++ rest) =
      loadLoop { st with last := some { e with
        messages := ms ++ [(g.1, g.2 ++ cs.map (· ++ ['\n']))] } } rest := by
  induction cs generalizing st e g with
  | nil =>
    simp only [List.map_nil, List.nil_append, List.append_nil]
    show loadLoop st rest =
      loadLoop { st with last := some { e with messages := ms ++ [g] } } rest
    rw [← hms]
    show loadLoop st rest = loadLoop { st with last := some e } rest
    rw [← hst]
  | cons c cs' ih =>
    simp only [List.all_cons, Bool.and_eq_true] at hg
    have hmne : e.messages ≠ [] := by rw [hms]; simp
    rw [List.map_cons, List.cons_append]
    rw [loadLoop_cons_ok _ _ _ _ (processLine_cont st e c hst hmne hg.1)]
    rw [hms, updateLast_concat]
    rw [ih _ _ _ rfl rfl hg.2]
    rw [List.append_assoc]
    rfl

theorem loadLoop_message (m : WFMessage) (rest : List (List Char)) (st : LoadSt)
    (e : ChangeLogEntry) (hst : st.last = some e) (hg : goodMessage m = true) :
    loadLoop st (WFMessage.lines m ++ rest) =
      loadLoop { st with last := some { e with
        messages := e.messages ++ [m.toGroup] } } rest := by
  have hg' := hg
  unfold goodMessage at hg'
  simp only [Bool.and_eq_true] at hg'
  obtain ⟨⟨⟨⟨h1, h2⟩, _⟩, hb⟩, hcs⟩ := hg'
  show loadLoop st (bulletLine m.first :: (m.conts.map (· ++ ['\n']) ++ rest)) = _
  rw [loadLoop_cons_ok _ _ _ _ (processLine_bullet st e m.first hst h1 h2 hb)]
  rw [loadLoop_conts m.conts rest _ (e.add_message m.first) e.messages (m.first, []) rfl
    (by unfold ChangeLogEntry.add_message; rfl) hcs]
  rfl

theorem loadLoop_messages (msgs : List WFMessage) (rest : List (List Char)) (st : LoadSt)
    (e : ChangeLogEntry) (hst : st.last = some e) (hgs : msgs.all goodMessage = true) :
    loadLoop st ((msgs.map WFMessage.lines).flatten ++ rest) =
      loadLoop { st with last := some { e with
        messages := e.messages ++ msgs.map WFMessage.toGroup } } rest := by
  induction msgs generalizing st e with
  | nil =>
    simp only [List.map_nil, List.flatten_nil, List.nil_append, List.append_nil]
    show loadLoop st rest = loadLoop { st with last := some e } rest
    rw [← hst]
  | cons m msgs' ih =>
    simp only [List.all_cons, Bool.and_eq_true] at hgs
    rw [List.map_cons, List.flatten_cons, List.append_assoc]
    rw [loadLoop_message m _ st e hst hgs.1]
    rw [ih _ _ rfl hgs.2]
    simp [List.append_assoc]

theorem loadLoop_entry (e : WFEntry) (rest : List (List Char)) (st : LoadSt)
    (hg : goodEntry e = true) :
    loadLoop st (WFEntry.lines e ++ rest) =
      loadLoop { st with
        done := st.done ++ st.last.toList
        last := some e.toEntry } rest := by
  have hg' := hg
  unfold goodEntry at hg'
  simp only [Bool.and_eq_true] at hg'
  obtain ⟨hh, hmsgs⟩ := hg'
  show loadLoop st (headerLine e.header :: ((e.messages.map WFMessage.lines).flatten ++ rest)) = _
  cases hhd : e.header with
  | none =>
    rw [show headerLine none = "  --  ".data ++ ['\n'] from rfl]
    rw [loadLoop_cons_ok _ _ _ _ (processLine_current st)]
    rw [loadLoop_messages e.messages rest _ ChangeLogEntry.empty rfl hmsgs]
    simp [WFEntry.toEntry, ChangeLogEntry.empty, hhd]
  | some dv =>
    obtain ⟨d, v⟩ := dv
    rw [hhd] at hh
    have hh' : (!d.isEmpty && d.all (fun ch => !pySpace ch) && !v.isEmpty) = true := hh
    simp only [Bool.and_eq_true, Bool.not_eq_true'] at hh'
    obtain ⟨⟨hd0, hd2⟩, hv0⟩ := hh'
    have hd1 : d ≠ [] := by
      intro h
      rw [h] at hd0
      simp at hd0
    have hv : v ≠ [] := by
      intro h
      rw [h] at hv0
      simp at hv0
    rw [loadLoop_cons_ok _ _ _ _ (processLine_dated st d v hd1 hd2 hv)]
    rw [loadLoop_messages e.messages rest _ _ rfl hmsgs]
    simp [WFEntry.toEntry, hhd]

theorem loadLoop_title (cs : List (List Char)) (rest : List (List Char)) (st : LoadSt)
    (hst : st.last = none) (hg : cs.all goodTitleLine = true) :
    loadLoop st (cs.map (· ++ ['\n']) ++ rest) =
      loadLoop { st with title := st.title ++ (cs.map (· ++ ['\n'])).flatten } rest := by
  induction cs generalizing st with
  | nil =>
    simp only [List.map_nil, List.flatten_nil, List.nil_append, List.append_nil]
  | cons c cs' ih =>
    simp only [List.all_cons, Bool.and_eq_true] at hg
    rw [List.map_cons, List.cons_append]
    rw [loadLoop_cons_ok _ _ _ _ (processLine_title st c hst hg.1)]
    rw [ih { st with title := st.title ++ (c ++ ['\n']) } hst hg.2]
    simp [List.append_assoc]

theorem loadLoop_entries (es : List WFEntry) (st : LoadSt) (hg : es.all goodEntry = true) :
    ∃ st', loadLoop st ((es.map WFEntry.lines).flatten) = .ok st'
      ∧ st'.title = st.title ∧ st'.additional_content = st.additional_content
      ∧ st'.done ++ st'.last.toList
          = st.done ++ st.last.toList ++ es.map WFEntry.toEntry := by
  induction es generalizing st with
  | nil => exact ⟨st, rfl, rfl, rfl, by simp⟩
  | cons e es' ih =>
    simp only [List.all_cons, Bool.and_eq_true] at hg
    rw [List.map_cons, List.flatten_cons]
    rw [loadLoop_entry e _ st hg.1]
    obtain ⟨st', h1, h2, h3, h4⟩ := ih _ hg.2
    refine ⟨st', h1, h2, h3, ?_⟩
    rw [h4]
    simp [List.append_assoc]

theorem loadLines_of_ok (cl : ChangeLog) (lines : List (List Char)) (st' : LoadSt)
    (h : loadLoop (initSt cl) lines = .ok st') :
    loadLines cl lines = .ok {
      title := st'.title
      additional_content := st'.additional_content
      entries := st'.done ++ st'.last.toList } := by
  simp only [loadLines, h]

/-! ## The serialiser on the loaded model -/

theorem foldr_append_eq_flatten (L : List (List α)) : L.foldr (· ++ ·) [] = L.flatten := by
  induction L with
  | nil => rfl
  | cons x rest ih => simp [ih]

theorem msgs_foldr_flatten (msgs : List WFMessage) :
    (msgs.map WFMessage.toGroup).foldr
      (fun g acc => INDENT ++ [BULLET, ' '] ++ g.1 ++ ['\n'] ++ g.2.foldr (· ++ ·) [] ++ acc)
      [] = ((msgs.map WFMessage.lines).flatten).flatten := by
  induction msgs with
  | nil => rfl
  | cons m rest ih =>
    simp only [List.map_cons, List.foldr_cons, List.flatten_cons, List.flatten_append,
      WFMessage.lines]
    rw [ih, foldr_append_eq_flatten]
    simp [WFMessage.toGroup, bulletLine, List.append_assoc]

theorem writeOut_toEntry (e : WFEntry) :
    (WFEntry.toEntry e).writeOut = (WFEntry.lines e).flatten := by
  unfold ChangeLogEntry.writeOut WFEntry.toEntry WFEntry.lines
  rw [List.flatten_cons]
  cases e.header with
  | none =>
    simp only [Option.map_none, Option.getD_none]
    rw [msgs_foldr_flatten]
    simp [headerLine, List.append_assoc]
  | some dv =>
    obtain ⟨d, v⟩ := dv
    simp only [Option.map_some]
    rw [msgs_foldr_flatten]
    show d ++ "  --  ".data ++ renderVersion (v.map Int.ofNat) ++ ['\n'] ++ _ = _
    rw [renderVersion_map_ofNat]
    simp [headerLine, List.append_assoc]

theorem entries_foldr (es : List WFEntry) :
    (es.map WFEntry.toEntry).foldr (fun e acc => e.writeOut ++ acc) []
      = ((es.map WFEntry.lines).flatten).flatten := by
  induction es with
  | nil => rfl
  | cons e rest ih =>
    simp only [List.map_cons, List.foldr_cons, List.flatten_cons, List.flatten_append]
    rw [ih, writeOut_toEntry]

theorem writeOut_expected (w : WFLog) (hne : w.titleLines ≠ [])
    (hgood : w.titleLines.all goodTitleLine = true) :
    ChangeLog.writeOut w.expected = w.text := by
  have hends : ∀ c ∈ w.titleLines, headNS c = true ∧ lastNS c = true := by
    intro c hc
    have := List.all_eq_true.mp hgood c hc
    unfold goodTitleLine at this
    simp only [Bool.and_eq_true] at this
    exact ⟨this.1.1.1.1, this.1.1.1.2⟩
  have htitle := pyStrip_flatten_title w.titleLines hne hends
  unfold ChangeLog.writeOut ChangeLog.format_title WFLog.expected WFLog.text WFLog.lines
  show pyStrip ((w.titleLines.map (· ++ ['\n'])).flatten) ++ ['\n', '\n']
      ++ (w.entries.map WFEntry.toEntry).foldr (fun e acc => e.writeOut ++ acc) [] = _
  rw [entries_foldr]
  rw [List.flatten_append, List.flatten_cons]
  have h2 : pyStrip ((w.titleLines.map (· ++ ['\n'])).flatten) ++ ['\n', '\n']
      = (w.titleLines.map (· ++ ['\n'])).flatten ++ ['\n'] := by
    rw [show (['\n', '\n'] : List Char) = ['\n'] ++ ['\n'] from rfl, ← List.append_assoc,
      htitle]
  rw [h2]
  simp [List.append_assoc]

/-- C1: for every well-formed change log text (title block, blank separator,
optionally one leading current entry, then dated entries, with bulleted
messages and verbatim continuation lines), `load` rebuilds exactly the
expected model (title concatenated verbatim, every entry's date, version and
message first lines, continuation lines verbatim, empty `additional_content`)
and `write` reproduces the text exactly; `additional_content` is dropped by
`write`, which never reads it. -/
theorem load_write_roundtrip (w : WFLog) (h : wellFormed w = true) :
    loadLines freshLog w.lines = .ok w.expected
    ∧ ChangeLog.writeOut w.expected = w.text
    ∧ w.expected.additional_content = []
    ∧ ChangeLog.writeOut { w.expected with additional_content := "ignored".data }
        = ChangeLog.writeOut w.expected := by
  have h' := h
  unfold wellFormed at h'
  simp only [Bool.and_eq_true] at h'
  obtain ⟨⟨⟨hne0, htl⟩, hent⟩, _⟩ := h'
  have hne : w.titleLines ≠ [] := by
    intro he
    rw [he] at hne0
    simp at hne0
  refine ⟨?_, writeOut_expected w hne htl, rfl, rfl⟩
  obtain ⟨st', h1, h2, h3, h4⟩ := loadLoop_entries w.entries
    { title := (w.titleLines.map (· ++ ['\n'])).flatten, additional_content := [],
      done := [], last := none } hent
  have hchain : loadLoop (initSt freshLog) w.lines = .ok st' := by
    unfold WFLog.lines
    rw [loadLoop_title w.titleLines _ (initSt freshLog) rfl htl]
    rw [loadLoop_cons_ok _ _ _ _ (processLine_blank _ rfl)]
    exact h1
  rw [loadLines_of_ok _ _ _ hchain]
  have hT : st'.title = (w.titleLines.map (· ++ ['\n'])).flatten := h2
  have hA : st'.additional_content = [] := h3
  have hE : st'.done ++ st'.last.toList = w.entries.map WFEntry.toEntry := by
    rw [h4]
    simp
  rw [hT, hA, hE]
  rfl

/-- C1 witness: the sample log of the source docstring is well formed; it
loads to the expected three-entry model and writes back to its own text. -/
theorem load_write_roundtrip_witness :
    wellFormed sampleLog = true
    ∧ (loadLines freshLog sampleLog.lines = .ok sampleLog.expected
       ∧ ChangeLog.writeOut sampleLog.expected = sampleLog.text
       ∧ sampleLog.expected.additional_content = []
       ∧ ChangeLog.writeOut { sampleLog.expected with additional_content := "ignored".data }
           = ChangeLog.writeOut sampleLog.expected) :=
  ⟨by decide, load_write_roundtrip sampleLog (by decide)⟩
